import Mathlib

/-!
Verification of the png-msg chunk codec.

The development shallowly embeds the two source files of the repository,
`src/chunk_type.rs` and `src/chunk.rs`, over `Nat` bytes:

* `ChunkType` models the Rust `ChunkType { bytes: [u8; 4] }` as four byte
  fields; `ChunkType.is_valid`, `is_critical`, `is_public`,
  `is_reserved_bit_valid`, `is_safe_to_copy` and `ChunkType.from_str`
  mirror the corresponding Rust functions byte for byte (in particular
  `is_valid` keeps the source's half-open `b < b'z'` lowercase bound,
  while `from_str` keeps its inclusive `b <= b'z'` bound).
* `checksum_ieee` models `crc::crc32::checksum_ieee` (the external crate
  the repository links): the standard bit-reversed CRC-32 with polynomial
  0xEDB88320, initial value 0xFFFFFFFF and final complement, expressed
  bitwise over `Nat`.
* `Chunk` models `Chunk { chunk_type, data: Vec<u8> }`; `Chunk.as_bytes`
  and `Chunk.try_from` mirror serialization and `TryFrom<&[u8]>`.
  Rust's `slice::split_at` aborts the process when the index exceeds the
  slice length, so `split_at` returns an `Option` and `Chunk.try_from`
  returns `Option (Except ChunkError Chunk)`, where `none` marks that
  abort (a reachable outcome, see the C3 theorem).
-/

namespace PngMsg

/-- Big-endian 32-bit read of four bytes, `u32::from_be_bytes`. -/
def u32_from_be (a b c d : Nat) : Nat :=
  ((a * 256 + b) * 256 + c) * 256 + d

/-- Big-endian 32-bit write, `u32::to_be_bytes` (argument already reduced
mod 2^32 by the caller where Rust casts). -/
def u32_to_be (n : Nat) : List Nat :=
  [n / 2 ^ 24 % 256, n / 2 ^ 16 % 256, n / 2 ^ 8 % 256, n % 256]

/-- `<&[u8] as TryInto<[u8;4]>>::try_into`: succeeds exactly on 4-byte
slices. -/
def toBytes4 : List Nat → Option (Nat × Nat × Nat × Nat)
  | [a, b, c, d] => some (a, b, c, d)
  | _ => none

/-- Rust `slice::split_at`: aborts (here `none`) when the index exceeds
the length, otherwise splits. -/
def split_at (n : Nat) (l : List Nat) : Option (List Nat × List Nat) :=
  if n ≤ l.length then some (l.take n, l.drop n) else none

/-- The bit-reversed CRC-32 (IEEE 802.3) polynomial. -/
def crcPoly : Nat := 0xEDB88320

/-- One bit-step of the reflected CRC-32: shift right, and when the bit
shifted out was set, fold in the polynomial. -/
def crcStepBit (c : Nat) : Nat :=
  if c % 2 = 1 then (c / 2) ^^^ crcPoly else c / 2

/-- Eight bit-steps: the per-byte core of the CRC-32 update. -/
def crcStep8 (c : Nat) : Nat :=
  crcStepBit (crcStepBit (crcStepBit (crcStepBit
    (crcStepBit (crcStepBit (crcStepBit (crcStepBit c)))))))

/-- CRC-32 update by one byte: XOR the byte into the low bits, then run
eight bit-steps. -/
def crcUpdate (c b : Nat) : Nat :=
  crcStep8 (c ^^^ b)

/-- `crc::crc32::checksum_ieee`: start from the complement of 0, update
by each byte, complement the result. -/
def checksum_ieee (data : List Nat) : Nat :=
  (data.foldl crcUpdate 0xFFFFFFFF) ^^^ 0xFFFFFFFF

/-- `ChunkType { bytes: [u8; 4] }`: the four tag bytes. -/
structure ChunkType where
  b0 : Nat
  b1 : Nat
  b2 : Nat
  b3 : Nat
deriving DecidableEq

/-- `ChunkType::bytes`, the backing array as a list. -/
def ChunkType.bytes (c : ChunkType) : List Nat :=
  [c.b0, c.b1, c.b2, c.b3]

/-- `ChunkType::is_critical`: bit 0x20 of byte 0 clear. -/
def ChunkType.is_critical (c : ChunkType) : Bool :=
  (c.b0 &&& 0x20) != 0x20

/-- `ChunkType::is_public`: bit 0x20 of byte 1 clear. -/
def ChunkType.is_public (c : ChunkType) : Bool :=
  (c.b1 &&& 0x20) != 0x20

/-- `ChunkType::is_reserved_bit_valid`: bit 0x20 of byte 2 clear. -/
def ChunkType.is_reserved_bit_valid (c : ChunkType) : Bool :=
  (c.b2 &&& 0x20) != 0x20

/-- `ChunkType::is_safe_to_copy`: bit 0x20 of byte 3 set. -/
def ChunkType.is_safe_to_copy (c : ChunkType) : Bool :=
  (c.b3 &&& 0x20) == 0x20

/-- `ChunkType::is_valid`, with the source's exact character test
`b >= b'a' && b < b'z' || (b >= b'A' && b <= b'Z')` (note the strict
upper bound on the lowercase range). -/
def ChunkType.is_valid (c : ChunkType) : Bool :=
  (c.bytes.all fun b => (97 ≤ b && b < 122) || (65 ≤ b && b ≤ 90))
    && c.is_reserved_bit_valid

/-- `ChunkTypeError` from `chunk_type.rs`. -/
inductive ChunkTypeError where
  | ByteLengthError (actual : Nat)
  | InvalidCharacter
deriving DecidableEq

/-- `TryFrom<[u8;4]> for ChunkType`: structurally infallible. -/
def ChunkType.try_from (value : Nat × Nat × Nat × Nat) :
    Except ChunkTypeError ChunkType :=
  Except.ok ⟨value.1, value.2.1, value.2.2.1, value.2.2.2⟩

/-- `FromStr for ChunkType` on the UTF-8 bytes of the input string:
length check, then the inclusive ASCII-letter check
`b >= b'a' && b <= b'z' || (b >= b'A' && b <= b'Z')`, then the
infallible array conversion. The final `toBytes4` cannot return `none`
because the length is 4 at that point; that arm is dead. -/
def ChunkType.from_str (s : List Nat) : Except ChunkTypeError ChunkType :=
  if s.length ≠ 4 then
    Except.error (ChunkTypeError.ByteLengthError s.length)
  else if ¬ (s.all fun b => (97 ≤ b && b ≤ 122) || (65 ≤ b && b ≤ 90)) then
    Except.error ChunkTypeError.InvalidCharacter
  else
    match toBytes4 s with
    | some v => ChunkType.try_from v
    | none => Except.error (ChunkTypeError.ByteLengthError s.length)

/-- `Chunk { chunk_type, data }`. -/
structure Chunk where
  chunk_type : ChunkType
  data : List Nat
deriving DecidableEq

/-- `Chunk::DATA_LENGTH_BYTES`. -/
def Chunk.DATA_LENGTH_BYTES : Nat := 4

/-- `Chunk::CHUNK_TYPE_BYTES`. -/
def Chunk.CHUNK_TYPE_BYTES : Nat := 4

/-- `Chunk::CRC_BYTES`. -/
def Chunk.CRC_BYTES : Nat := 4

/-- `Chunk::METADATA_BYTES` (the source adds `CHUNK_TYPE_BYTES` twice in
place of `CRC_BYTES`; the value is still 12). -/
def Chunk.METADATA_BYTES : Nat :=
  Chunk.DATA_LENGTH_BYTES + Chunk.CHUNK_TYPE_BYTES + Chunk.CHUNK_TYPE_BYTES

/-- `Chunk::new`. -/
def Chunk.new (chunk_type : ChunkType) (data : List Nat) : Chunk :=
  ⟨chunk_type, data⟩

/-- `Chunk::length`: the payload byte count. -/
def Chunk.length (c : Chunk) : Nat :=
  c.data.length

/-- `Chunk::crc`: CRC-32 over the type bytes followed by the payload. -/
def Chunk.crc (c : Chunk) : Nat :=
  checksum_ieee (c.chunk_type.bytes ++ c.data)

/-- `Chunk::as_bytes`: `(length as u32) BE ++ type bytes ++ payload ++
crc BE`. -/
def Chunk.as_bytes (c : Chunk) : List Nat :=
  u32_to_be (c.length % 2 ^ 32) ++ c.chunk_type.bytes ++ c.data
    ++ u32_to_be c.crc

/-- `ChunkError` from `chunk.rs`. -/
inductive ChunkError where
  | InputTooSmall
  | InvalidCrc (expected actual : Nat)
  | InvalidChunkType
deriving DecidableEq

/-- `TryFrom<&[u8]> for Chunk`. `none` is the process abort that Rust's
`split_at` raises when an index exceeds the slice length; every other
outcome mirrors the source line by line. The `toBytes4` arms are dead
(each is applied to a slice `split_at` just cut to length 4). -/
def Chunk.try_from (value : List Nat) : Option (Except ChunkError Chunk) :=
  if value.length < Chunk.METADATA_BYTES then
    some (Except.error ChunkError.InputTooSmall)
  else
    match split_at Chunk.DATA_LENGTH_BYTES value with
    | none => none
    | some (dlb, v1) =>
      match toBytes4 dlb with
      | none => none
      | some (l0, l1, l2, l3) =>
        let data_length := u32_from_be l0 l1 l2 l3
        match split_at Chunk.CHUNK_TYPE_BYTES v1 with
        | none => none
        | some (ctb, v2) =>
          match toBytes4 ctb with
          | none => none
          | some (c0, c1, c2, c3) =>
            let chunk_type : ChunkType := ⟨c0, c1, c2, c3⟩
            if chunk_type.is_valid = false then
              some (Except.error ChunkError.InvalidChunkType)
            else
              match split_at data_length v2 with
              | none => none
              | some (data, v3) =>
                match split_at Chunk.CRC_BYTES v3 with
                | none => none
                | some (crcb, _) =>
                  let c : Chunk := ⟨chunk_type, data⟩
                  let actual_crc := c.crc
                  match toBytes4 crcb with
                  | none => none
                  | some (r0, r1, r2, r3) =>
                    let expected_crc := u32_from_be r0 r1 r2 r3
                    if expected_crc ≠ actual_crc then
                      some (Except.error
                        (ChunkError.InvalidCrc expected_crc actual_crc))
                    else
                      some (Except.ok c)

/-- The spec's notion of an ASCII letter: `A`-`Z` or `a`-`z`, both ranges
inclusive. -/
def specAsciiLetter (b : Nat) : Bool :=
  (65 ≤ b && b ≤ 90) || (97 ≤ b && b ≤ 122)

/-- The spec's notion of a valid tag: all four bytes ASCII letters and
byte index 2 uppercase. -/
def specValidTag (c : ChunkType) : Bool :=
  c.bytes.all specAsciiLetter && (65 ≤ c.b2 && c.b2 ≤ 90)

/-- Flip bit `k` of the byte at index `i`. -/
def flipAt (l : List Nat) (i k : Nat) : List Nat :=
  l.set i ((l.getD i 0) ^^^ 2 ^ k)

/-- The first four bytes of a list, as a `ChunkType`. -/
def tagOfBytes (l : List Nat) : ChunkType :=
  ⟨l.getD 0 0, l.getD 1 0, l.getD 2 0, l.getD 3 0⟩

/-- The payload of the repository's own chunk tests:
`"This is where your secret message will be!"` as bytes. -/
def secretMsg : List Nat :=
  [84, 104, 105, 115, 32, 105, 115, 32, 119, 104, 101, 114, 101, 32, 121,
   111, 117, 114, 32, 115, 101, 99, 114, 101, 116, 32, 109, 101, 115, 115,
   97, 103, 101, 32, 119, 105, 108, 108, 32, 98, 101, 33]

/-! ## CRC-32 algebra

`crcStepBit` is GF(2)-linear on the bit vector of its argument and sends
only 0 to 0 below 2^32; both facts lift through `crcStep8`, `crcUpdate`
and the byte fold, giving the single-bit sensitivity of the checksum. -/

theorem xor_div_two (x y : Nat) : (x ^^^ y) / 2 = x / 2 ^^^ y / 2 := by
  apply Nat.eq_of_testBit_eq
  intro i
  have h1 : ((x ^^^ y) / 2).testBit i = (x ^^^ y).testBit (i + 1) :=
    (Nat.testBit_succ _ _).symm
  rw [h1, Nat.testBit_xor, Nat.testBit_xor, ← Nat.testBit_succ,
    ← Nat.testBit_succ]

theorem xor_mod_two (x y : Nat) : (x ^^^ y) % 2 = (x % 2 + y % 2) % 2 := by
  have h := Nat.testBit_xor x y 0
  rw [Nat.testBit_zero, Nat.testBit_zero, Nat.testBit_zero] at h
  rcases Nat.mod_two_eq_zero_or_one x with hx | hx <;>
    rcases Nat.mod_two_eq_zero_or_one y with hy | hy <;>
      rcases Nat.mod_two_eq_zero_or_one (x ^^^ y) with hxy | hxy <;>
        simp [hx, hy, hxy] at h ⊢

theorem xor_left_comm (a b c : Nat) : a ^^^ (b ^^^ c) = b ^^^ (a ^^^ c) := by
  rw [← Nat.xor_assoc, Nat.xor_comm a b, Nat.xor_assoc]

theorem xor_xor_cancel (a b : Nat) : a ^^^ (a ^^^ b) = b := by
  rw [← Nat.xor_assoc, Nat.xor_self, Nat.zero_xor]

theorem crcStepBit_xor (x y : Nat) :
    crcStepBit (x ^^^ y) = crcStepBit x ^^^ crcStepBit y := by
  unfold crcStepBit
  have hm := xor_mod_two x y
  have hd := xor_div_two x y
  rcases Nat.mod_two_eq_zero_or_one x with hx | hx <;>
    rcases Nat.mod_two_eq_zero_or_one y with hy | hy <;>
      simp [hx, hy] at hm <;>
        simp [hx, hy, hm, hd, Nat.xor_assoc, Nat.xor_comm, xor_left_comm,
          xor_xor_cancel]

theorem crcStepBit_zero : crcStepBit 0 = 0 := by decide

theorem crcStepBit_lt {x : Nat} (h : x < 2 ^ 32) : crcStepBit x < 2 ^ 32 := by
  unfold crcStepBit
  have hdiv : x / 2 < 2 ^ 32 := lt_of_le_of_lt (Nat.div_le_self x 2) h
  split
  · exact Nat.xor_lt_two_pow hdiv (by decide)
  · exact hdiv

theorem crcStepBit_eq_zero {x : Nat} (hx : x < 2 ^ 32)
    (h : crcStepBit x = 0) : x = 0 := by
  unfold crcStepBit at h
  split at h
  · rename_i hodd
    have : x / 2 = crcPoly := by
      have := congrArg (fun z => z ^^^ crcPoly) h
      simpa [Nat.xor_assoc, Nat.xor_self, Nat.xor_zero] using this
    rw [crcPoly] at this
    omega
  · omega

theorem crcStep8_xor (x y : Nat) :
    crcStep8 (x ^^^ y) = crcStep8 x ^^^ crcStep8 y := by
  unfold crcStep8
  rw [crcStepBit_xor, crcStepBit_xor, crcStepBit_xor, crcStepBit_xor,
    crcStepBit_xor, crcStepBit_xor, crcStepBit_xor, crcStepBit_xor]

theorem crcStep8_zero : crcStep8 0 = 0 := by decide

theorem crcStep8_lt {x : Nat} (h : x < 2 ^ 32) : crcStep8 x < 2 ^ 32 := by
  unfold crcStep8
  exact crcStepBit_lt (crcStepBit_lt (crcStepBit_lt (crcStepBit_lt
    (crcStepBit_lt (crcStepBit_lt (crcStepBit_lt (crcStepBit_lt h)))))))

theorem crcStep8_eq_zero {x : Nat} (hx : x < 2 ^ 32)
    (h : crcStep8 x = 0) : x = 0 := by
  unfold crcStep8 at h
  have h1 := crcStepBit_lt hx
  have h2 := crcStepBit_lt h1
  have h3 := crcStepBit_lt h2
  have h4 := crcStepBit_lt h3
  have h5 := crcStepBit_lt h4
  have h6 := crcStepBit_lt h5
  have h7 := crcStepBit_lt h6
  exact crcStepBit_eq_zero hx (crcStepBit_eq_zero h1 (crcStepBit_eq_zero h2
    (crcStepBit_eq_zero h3 (crcStepBit_eq_zero h4 (crcStepBit_eq_zero h5
      (crcStepBit_eq_zero h6 (crcStepBit_eq_zero h7 h)))))))

theorem crcUpdate_xor (c1 c2 b1 b2 : Nat) :
    crcUpdate (c1 ^^^ c2) (b1 ^^^ b2) = crcUpdate c1 b1 ^^^ crcUpdate c2 b2 := by
  unfold crcUpdate
  rw [← crcStep8_xor]
  congr 1
  simp [Nat.xor_assoc, Nat.xor_comm, xor_left_comm]

theorem crcUpdate_lt {c b : Nat} (hc : c < 2 ^ 32) (hb : b < 2 ^ 32) :
    crcUpdate c b < 2 ^ 32 :=
  crcStep8_lt (Nat.xor_lt_two_pow hc hb)

theorem crcUpdate_zero_ne {c : Nat} (hc : c < 2 ^ 32) (h : c ≠ 0) :
    crcUpdate c 0 ≠ 0 := by
  unfold crcUpdate
  rw [Nat.xor_zero]
  intro h0
  exact h (crcStep8_eq_zero hc h0)

/-- Linearity of the CRC byte fold over pointwise-XOR inputs of equal
length. -/
theorem crcFold_xor : ∀ (l1 l2 : List Nat) (c1 c2 : Nat),
    l1.length = l2.length →
    (List.zipWith (fun a b => a ^^^ b) l1 l2).foldl crcUpdate (c1 ^^^ c2) =
      l1.foldl crcUpdate c1 ^^^ l2.foldl crcUpdate c2 := by
  intro l1
  induction l1 with
  | nil =>
    intro l2 c1 c2 h
    cases l2 with
    | nil => simp
    | cons b t => simp at h
  | cons a t ih =>
    intro l2 c1 c2 h
    cases l2 with
    | nil => simp at h
    | cons b t2 =>
      simp only [List.zipWith_cons_cons, List.foldl_cons]
      rw [crcUpdate_xor]
      exact ih t2 _ _ (by simpa using h)

/-- Padding with zero bytes keeps a nonzero bounded accumulator
nonzero. -/
theorem crcFold_zeros_ne : ∀ (n : Nat) (c : Nat), c < 2 ^ 32 → c ≠ 0 →
    (List.replicate n 0).foldl crcUpdate c ≠ 0 := by
  intro n
  induction n with
  | zero => intro c _ h; simpa using h
  | succ m ih =>
    intro c hc h
    simp only [List.replicate_succ, List.foldl_cons]
    exact ih (crcUpdate c 0)
      (by unfold crcUpdate; rw [Nat.xor_zero]; exact crcStep8_lt hc)
      (crcUpdate_zero_ne hc h)

theorem crcFold_zeros_eq : ∀ (n : Nat),
    (List.replicate n 0).foldl crcUpdate 0 = 0 := by
  intro n
  induction n with
  | zero => rfl
  | succ m ih =>
    simp only [List.replicate_succ, List.foldl_cons]
    have h0 : crcUpdate 0 0 = 0 := by
      unfold crcUpdate; rw [Nat.xor_zero]; exact crcStep8_zero
    rw [h0]; exact ih

/-- The fold of a single-bit error vector is nonzero. -/
theorem crcFold_delta_ne (i m k : Nat) (hk : k < 8) :
    (List.replicate i 0 ++ 2 ^ k :: List.replicate m 0).foldl crcUpdate 0
      ≠ 0 := by
  rw [List.foldl_append, crcFold_zeros_eq]
  simp only [List.foldl_cons]
  apply crcFold_zeros_ne
  · have h1 : (2 : Nat) ^ k < 2 ^ 32 :=
      Nat.pow_lt_pow_right (by decide) (by omega)
    unfold crcUpdate
    rw [Nat.zero_xor]
    exact crcStep8_lt h1
  · unfold crcUpdate
    rw [Nat.zero_xor]
    intro h0
    have h1 : (2 : Nat) ^ k < 2 ^ 32 :=
      Nat.pow_lt_pow_right (by decide) (by omega)
    have := crcStep8_eq_zero h1 h0
    have h2 : (0 : Nat) < 2 ^ k := Nat.pos_pow_of_pos k (by decide)
    omega

theorem zipWith_xor_zeros : ∀ (l : List Nat),
    List.zipWith (fun a b => a ^^^ b) l (List.replicate l.length 0) = l := by
  intro l
  induction l with
  | nil => rfl
  | cons a t ih =>
    simp only [List.length_cons, List.replicate_succ, List.zipWith_cons_cons,
      Nat.xor_zero, ih]

/-- A single-bit flip is a pointwise XOR with a one-hot error vector. -/
theorem flipAt_eq_zipWith : ∀ (l : List Nat) (i k : Nat), i < l.length →
    flipAt l i k =
      List.zipWith (fun a b => a ^^^ b) l
        (List.replicate i 0 ++ 2 ^ k :: List.replicate (l.length - i - 1) 0) := by
  intro l
  induction l with
  | nil => intro i k h; simp at h
  | cons a t ih =>
    intro i k h
    cases i with
    | zero =>
      simp only [flipAt, List.set_cons_zero, List.getD_cons_zero,
        List.replicate, List.nil_append, List.zipWith_cons_cons,
        List.length_cons]
      rw [show t.length + 1 - 0 - 1 = t.length by omega]
      rw [zipWith_xor_zeros]
    | succ j =>
      have hj : j < t.length := by simp at h; omega
      have ihj := ih j k hj
      simp only [flipAt] at ihj
      simp only [flipAt, List.set_cons_succ, List.getD_cons_succ,
        List.replicate_succ, List.cons_append, List.zipWith_cons_cons,
        Nat.xor_zero, List.length_cons]
      rw [show (t.length + 1 - (j + 1) - 1) = t.length - j - 1 by omega]
      rw [ihj]

/-- Flipping one bit of one byte changes the CRC-32 checksum. -/
theorem checksum_flip_ne (l : List Nat) (i k : Nat) (hi : i < l.length)
    (hk : k < 8) : checksum_ieee (flipAt l i k) ≠ checksum_ieee l := by
  rw [flipAt_eq_zipWith l i k hi]
  unfold checksum_ieee
  have hlen : l.length =
      (List.replicate i 0 ++ 2 ^ k :: List.replicate (l.length - i - 1) 0).length := by
    simp; omega
  have hfold := crcFold_xor l
    (List.replicate i 0 ++ 2 ^ k :: List.replicate (l.length - i - 1) 0)
    0xFFFFFFFF 0 hlen
  rw [Nat.xor_zero] at hfold
  rw [hfold]
  intro heq
  have h1 : l.foldl crcUpdate 0xFFFFFFFF ^^^
      (List.replicate i 0 ++ 2 ^ k ::
        List.replicate (l.length - i - 1) 0).foldl crcUpdate 0 =
      l.foldl crcUpdate 0xFFFFFFFF := by
    have := congrArg (fun z => z ^^^ 0xFFFFFFFF) heq
    simpa [Nat.xor_assoc, Nat.xor_self, Nat.xor_zero] using this
  have h2 : (List.replicate i 0 ++ 2 ^ k ::
      List.replicate (l.length - i - 1) 0).foldl crcUpdate 0 = 0 := by
    have hc := congrArg (fun z => l.foldl crcUpdate 0xFFFFFFFF ^^^ z) h1
    simpa [xor_xor_cancel, Nat.xor_self] using hc
  exact crcFold_delta_ne i (l.length - i - 1) k hk h2

/-- The checksum of a byte list is a 32-bit value. -/
theorem checksum_lt (l : List Nat) (h : ∀ b ∈ l, b < 2 ^ 32) :
    checksum_ieee l < 2 ^ 32 := by
  unfold checksum_ieee
  have hfold : ∀ (m : List Nat), (∀ b ∈ m, b < 2 ^ 32) → ∀ c, c < 2 ^ 32 →
      m.foldl crcUpdate c < 2 ^ 32 := by
    intro m
    induction m with
    | nil => intro _ c hc; simpa using hc
    | cons a t ih =>
      intro hm c hc
      simp only [List.foldl_cons]
      exact ih (fun b hb => hm b (List.mem_cons_of_mem a hb))
        (crcUpdate c a) (crcUpdate_lt hc (hm a (List.mem_cons_self a t)))
  exact Nat.xor_lt_two_pow (hfold l h 0xFFFFFFFF (by decide)) (by decide)

/-! ## Parse/serialize frame lemmas -/

theorem u32_from_be_to_be (n : Nat) :
    u32_from_be (n / 2 ^ 24 % 256) (n / 2 ^ 16 % 256) (n / 2 ^ 8 % 256)
      (n % 256) = n % 2 ^ 32 := by
  unfold u32_from_be
  omega

theorem split_at_exact (l1 l2 : List Nat) (n : Nat) (h : l1.length = n) :
    split_at n (l1 ++ l2) = some (l1, l2) := by
  subst h
  unfold split_at
  rw [if_pos (by simp)]
  rw [List.take_left, List.drop_left]

theorem valid_bytes_lt {t : ChunkType} (h : t.is_valid = true) :
    ∀ b ∈ t.bytes, b < 256 := by
  simp only [ChunkType.is_valid, ChunkType.bytes, List.all_cons,
    List.all_nil, Bool.and_eq_true, Bool.and_true, Bool.or_eq_true,
    decide_eq_true_eq, Bool.and_eq_true] at h
  obtain ⟨⟨h0, h1, h2, h3⟩, _⟩ := h
  intro b hb
  simp only [ChunkType.bytes, List.mem_cons, List.not_mem_nil, or_false]
    at hb
  rcases hb with rfl | rfl | rfl | rfl <;>
    [skip; skip; skip; skip] <;> omega

/-- Parsing a well-formed frame with an invalid tag stops at the tag
check, whatever the rest of the input holds. -/
theorem try_from_frame_invalid (l0 l1 l2 l3 : Nat) (t : ChunkType)
    (rest : List Nat) (h4 : 4 ≤ rest.length) (hv : t.is_valid = false) :
    Chunk.try_from ([l0, l1, l2, l3] ++ t.bytes ++ rest) =
      some (Except.error ChunkError.InvalidChunkType) := by
  have hlen : ([l0, l1, l2, l3] ++ t.bytes ++ rest).length = 12 + rest.length - 4 := by
    simp [ChunkType.bytes]; omega
  unfold Chunk.try_from
  rw [if_neg (by simp [ChunkType.bytes, Chunk.METADATA_BYTES,
    Chunk.DATA_LENGTH_BYTES, Chunk.CHUNK_TYPE_BYTES]; omega)]
  rw [List.append_assoc]
  rw [show Chunk.DATA_LENGTH_BYTES = ([l0, l1, l2, l3] : List Nat).length from rfl]
  rw [split_at_exact [l0, l1, l2, l3] (t.bytes ++ rest) _ rfl]
  simp only [toBytes4]
  rw [show Chunk.CHUNK_TYPE_BYTES = (t.bytes).length from rfl]
  rw [split_at_exact t.bytes rest _ rfl]
  simp only [ChunkType.bytes, toBytes4]
  rw [if_pos]
  exact hv

/-- Parsing a well-formed frame whose declared length matches the
payload: the tag check, then the CRC comparison, decide the result;
trailing bytes `x` are ignored. -/
theorem try_from_frame (l0 l1 l2 l3 : Nat) (t : ChunkType) (p : List Nat)
    (r0 r1 r2 r3 : Nat) (x : List Nat)
    (hd : u32_from_be l0 l1 l2 l3 = p.length) :
    Chunk.try_from ([l0, l1, l2, l3] ++ t.bytes ++ p ++ [r0, r1, r2, r3] ++ x) =
      if t.is_valid = false then
        some (Except.error ChunkError.InvalidChunkType)
      else if u32_from_be r0 r1 r2 r3 ≠ (Chunk.new t p).crc then
        some (Except.error (ChunkError.InvalidCrc (u32_from_be r0 r1 r2 r3)
          (Chunk.new t p).crc))
      else some (Except.ok (Chunk.new t p)) := by
  unfold Chunk.try_from
  rw [if_neg (by simp [ChunkType.bytes, Chunk.METADATA_BYTES,
    Chunk.DATA_LENGTH_BYTES, Chunk.CHUNK_TYPE_BYTES]; omega)]
  rw [List.append_assoc, List.append_assoc, List.append_assoc]
  rw [show Chunk.DATA_LENGTH_BYTES = ([l0, l1, l2, l3] : List Nat).length from rfl]
  rw [split_at_exact [l0, l1, l2, l3] _ _ rfl]
  simp only [toBytes4]
  rw [show Chunk.CHUNK_TYPE_BYTES = (t.bytes).length from rfl]
  rw [split_at_exact t.bytes _ _ rfl]
  simp only [ChunkType.bytes, toBytes4]
  rw [hd]
  rw [show (p.length) = (p).length from rfl]
  rw [split_at_exact p _ _ rfl]
  dsimp only
  rw [show Chunk.CRC_BYTES = ([r0, r1, r2, r3] : List Nat).length from rfl]
  rw [split_at_exact [r0, r1, r2, r3] x _ rfl]
  simp only [toBytes4]
  rfl

theorem split_at_of_le (n : Nat) (l : List Nat) (h : n ≤ l.length) :
    split_at n l = some (l.take n, l.drop n) := by
  unfold split_at
  rw [if_pos h]

theorem split_at_append_of_le (n : Nat) (l x : List Nat) (h : n ≤ l.length) :
    split_at n (l ++ x) = some (l.take n, l.drop n ++ x) := by
  unfold split_at
  rw [if_pos (by simp; omega)]
  rw [List.take_append_of_le_length h, List.drop_append_of_le_length h]

theorem split_at_eq_some {n : Nat} {l a b : List Nat}
    (h : split_at n l = some (a, b)) :
    n ≤ l.length ∧ a = l.take n ∧ b = l.drop n := by
  unfold split_at at h
  split at h
  · injection h with h'
    injection h' with h1 h2
    exact ⟨by assumption, h1.symm, h2.symm⟩
  · exact absurd h (by simp)

theorem eq_four_of_length (l : List Nat) (h : l.length = 4) :
    ∃ a b c d : Nat, l = [a, b, c, d] := by
  rcases l with _ | ⟨a, l⟩
  · simp at h
  rcases l with _ | ⟨b, l⟩
  · simp at h
  rcases l with _ | ⟨c, l⟩
  · simp at h
  rcases l with _ | ⟨d, l⟩
  · simp at h
  rcases l with _ | ⟨e, l⟩
  · exact ⟨a, b, c, d, rfl⟩
  · simp at h

/-- A successful parse is unchanged by appending trailing bytes: the
parser never looks past the CRC field. -/
theorem try_from_append (s x : List Nat) (d : Chunk)
    (h : Chunk.try_from s = some (Except.ok d)) :
    Chunk.try_from (s ++ x) = some (Except.ok d) := by
  unfold Chunk.try_from at h ⊢
  by_cases h12 : s.length < Chunk.METADATA_BYTES
  · rw [if_pos h12] at h
    exact absurd h (by simp)
  · rw [if_neg h12] at h
    have h12' : 12 ≤ s.length := by
      simp only [Chunk.METADATA_BYTES, Chunk.DATA_LENGTH_BYTES,
        Chunk.CHUNK_TYPE_BYTES] at h12
      omega
    rw [if_neg (by
      simp only [Chunk.METADATA_BYTES, Chunk.DATA_LENGTH_BYTES,
        Chunk.CHUNK_TYPE_BYTES, List.length_append]
      omega)]
    rw [split_at_of_le Chunk.DATA_LENGTH_BYTES s (by
      simp only [Chunk.DATA_LENGTH_BYTES]; omega)] at h
    rw [split_at_append_of_le Chunk.DATA_LENGTH_BYTES s x (by
      simp only [Chunk.DATA_LENGTH_BYTES]; omega)]
    obtain ⟨l0, l1, l2, l3, htake⟩ :=
      eq_four_of_length (s.take Chunk.DATA_LENGTH_BYTES)
        (by simp [Chunk.DATA_LENGTH_BYTES, List.length_take]; omega)
    rw [htake] at h ⊢
    simp only [toBytes4] at h ⊢
    rw [split_at_of_le Chunk.CHUNK_TYPE_BYTES (s.drop Chunk.DATA_LENGTH_BYTES)
      (by simp only [Chunk.CHUNK_TYPE_BYTES, Chunk.DATA_LENGTH_BYTES,
        List.length_drop]; omega)] at h
    rw [split_at_append_of_le Chunk.CHUNK_TYPE_BYTES
      (s.drop Chunk.DATA_LENGTH_BYTES) x
      (by simp only [Chunk.CHUNK_TYPE_BYTES, Chunk.DATA_LENGTH_BYTES,
        List.length_drop]; omega)]
    obtain ⟨c0, c1, c2, c3, hctake⟩ :=
      eq_four_of_length ((s.drop Chunk.DATA_LENGTH_BYTES).take
        Chunk.CHUNK_TYPE_BYTES)
        (by simp [Chunk.CHUNK_TYPE_BYTES, Chunk.DATA_LENGTH_BYTES,
          List.length_take, List.length_drop]; omega)
    rw [hctake] at h ⊢
    simp only [toBytes4] at h ⊢
    by_cases hv : (ChunkType.mk c0 c1 c2 c3).is_valid = false
    · rw [if_pos hv] at h
      exact absurd h (by simp)
    · rw [if_neg hv] at h ⊢
      cases hsp : split_at (u32_from_be l0 l1 l2 l3)
          ((s.drop Chunk.DATA_LENGTH_BYTES).drop Chunk.CHUNK_TYPE_BYTES) with
      | none =>
        rw [hsp] at h
        exact absurd h (by simp)
      | some q3 =>
        obtain ⟨data, v3⟩ := q3
        obtain ⟨hle3, hdata, hv3⟩ := split_at_eq_some hsp
        rw [hsp] at h
        rw [split_at_append_of_le _ _ x hle3, ← hdata, ← hv3]
        simp only at h ⊢
        cases hcr : split_at Chunk.CRC_BYTES v3 with
        | none =>
          rw [hcr] at h
          exact absurd h (by simp)
        | some q4 =>
          obtain ⟨crcb, rest⟩ := q4
          obtain ⟨hle4, hcrcb, hrest⟩ := split_at_eq_some hcr
          rw [hcr] at h
          rw [split_at_append_of_le _ _ x hle4, ← hcrcb]
          simp only at h ⊢
          obtain ⟨r0, r1, r2, r3, hr⟩ := eq_four_of_length crcb (by
            have h4 : (4 : Nat) ≤ v3.length := by
              simpa [Chunk.CRC_BYTES] using hle4
            rw [hcrcb]
            simp only [Chunk.CRC_BYTES, List.length_take]
            omega)
          rw [hr] at h ⊢
          simp only [toBytes4] at h ⊢
          by_cases hcrc : u32_from_be r0 r1 r2 r3 ≠
              (Chunk.mk (ChunkType.mk c0 c1 c2 c3) data).crc
          · rw [if_pos hcrc] at h
            exact absurd h (by simp)
          · rw [if_neg hcrc] at h ⊢
            exact h

theorem flipAt_append_middle (A M D : List Nat) (i k : Nat)
    (h4 : A.length ≤ i) (hi : i - A.length < M.length) :
    flipAt (A ++ (M ++ D)) i k = A ++ (flipAt M (i - A.length) k ++ D) := by
  unfold flipAt
  rw [List.getD_append_right A (M ++ D) 0 i h4]
  rw [List.getD_append M D 0 (i - A.length) hi]
  rw [List.set_append_right i _ h4]
  rw [List.set_append_left (i - A.length) _ hi]

theorem exists_cons4 (l : List Nat) (h : 4 ≤ l.length) :
    ∃ a b c d rest, l = a :: b :: c :: d :: rest := by
  rcases l with _ | ⟨a, l⟩
  · simp at h
  rcases l with _ | ⟨b, l⟩
  · simp at h
  rcases l with _ | ⟨c, l⟩
  · simp at h
  rcases l with _ | ⟨d, l⟩
  · simp at h
  exact ⟨a, b, c, d, l, rfl⟩

/-! ## Claim theorems -/

/-- C1: the claim says `is_valid()` is true iff all 4 bytes are ASCII
letters (including lowercase `z`) and byte index 2 is uppercase. The
code's character range `b >= b'a' && b < b'z'` excludes `z`, so the tag
`"zaAb"` is valid per the claim yet rejected by the code, while the
sibling check in `from_str` uses the inclusive `b <= b'z'`. -/
theorem claim_C1_sees_z_invalid :
    specValidTag ⟨122, 97, 65, 98⟩ = true ∧
    ChunkType.is_valid ⟨122, 97, 65, 98⟩ = false ∧
    ChunkType.from_str [122, 97, 65, 98] =
      Except.ok ⟨122, 97, 65, 98⟩ :=
  ⟨rfl, rfl, rfl⟩

/-- C3: the claim says any input of at least 12 bytes whose declared
length exceeds the available payload bytes still yields a typed
recoverable error. On the 12-byte input below (declared length 5, valid
tag `RuSt`, only 4 bytes left after the header) the source reaches
`value.split_at(data_length)` with `data_length` larger than the slice,
which aborts the process — modelled by `none`. -/
theorem claim_C3_length_overrun_aborts :
    Chunk.try_from [0, 0, 0, 5, 82, 117, 83, 116, 0, 0, 0, 0] = none ∧
    ([0, 0, 0, 5, 82, 117, 83, 116, 0, 0, 0, 0] : List Nat).length = 12 :=
  ⟨rfl, rfl⟩

/-- C5: parsing fewer than 12 bytes fails with `InputTooSmall`, and an
input of at least 12 bytes never produces that error. -/
theorem claim_C5_too_short (v : List Nat) :
    (v.length < 12 → Chunk.try_from v =
      some (Except.error ChunkError.InputTooSmall)) ∧
    (12 ≤ v.length → Chunk.try_from v ≠
      some (Except.error ChunkError.InputTooSmall)) := by
  constructor
  · intro h
    unfold Chunk.try_from
    rw [if_pos (by
      simp only [Chunk.METADATA_BYTES, Chunk.DATA_LENGTH_BYTES,
        Chunk.CHUNK_TYPE_BYTES]
      omega)]
  · intro h
    unfold Chunk.try_from
    rw [if_neg (by
      simp only [Chunk.METADATA_BYTES, Chunk.DATA_LENGTH_BYTES,
        Chunk.CHUNK_TYPE_BYTES]
      omega)]
    dsimp only
    repeat' split
    all_goals simp

/-- C5 witness: the empty input is rejected as too small, and a 12-byte
input is not. -/
theorem claim_C5_witness :
    Chunk.try_from [] = some (Except.error ChunkError.InputTooSmall) ∧
    Chunk.try_from (List.replicate 12 0) ≠
      some (Except.error ChunkError.InputTooSmall) :=
  ⟨(claim_C5_too_short []).1 (by decide),
   (claim_C5_too_short (List.replicate 12 0)).2 (by decide)⟩

/-- C6: the serialized form is always 12 bytes of metadata plus the
payload; `length()` is the payload byte count; an empty payload
serializes to exactly 12 bytes. -/
theorem claim_C6_serialized_length (c : Chunk) :
    (Chunk.as_bytes c).length = 12 + c.length ∧
    c.length = c.data.length ∧
    (c.data = [] → (Chunk.as_bytes c).length = 12) := by
  refine ⟨?_, rfl, ?_⟩
  · simp [Chunk.as_bytes, u32_to_be, ChunkType.bytes, Chunk.length]
    omega
  · intro h
    simp [Chunk.as_bytes, u32_to_be, ChunkType.bytes, Chunk.length, h]

/-- C6 witness: a concrete empty-payload chunk serializes to 12 bytes. -/
theorem claim_C6_witness :
    ((Chunk.new ⟨82, 117, 83, 116⟩ []).as_bytes).length = 12 :=
  (claim_C6_serialized_length (Chunk.new ⟨82, 117, 83, 116⟩ [])).2.2 rfl

set_option maxRecDepth 100000 in
/-- C7: `crc()` is the CRC-32 (IEEE, PNG/zlib variant) of the type-tag
bytes followed by the payload, and depends on nothing else; on the
repository's own test chunk (`RuSt` with the secret-message payload) it
equals the test's expected value 2882656334. -/
theorem claim_C7_crc (c : Chunk) :
    c.crc = checksum_ieee (c.chunk_type.bytes ++ c.data) ∧
    (∀ d : Chunk, d.chunk_type = c.chunk_type → d.data = c.data →
      d.crc = c.crc) ∧
    Chunk.crc (Chunk.new ⟨82, 117, 83, 116⟩ secretMsg) = 2882656334 := by
  refine ⟨rfl, ?_, by decide⟩
  intro d h1 h2
  simp [Chunk.crc, h1, h2]

/-- C7 witness: the test-vector conjunct at the repository's test
chunk. -/
theorem claim_C7_witness :
    Chunk.crc (Chunk.new ⟨82, 117, 83, 116⟩ secretMsg) = 2882656334 :=
  (claim_C7_crc (Chunk.new ⟨82, 117, 83, 116⟩ secretMsg)).2.2

/-- C8: `from_str` fails with the length error exactly when the input is
not 4 bytes; otherwise it fails with the character error exactly when
some byte is not an ASCII letter; otherwise it stores the bytes
verbatim. -/
theorem claim_C8_from_str (s : List Nat) :
    (s.length ≠ 4 → ChunkType.from_str s =
      Except.error (ChunkTypeError.ByteLengthError s.length)) ∧
    (s.length = 4 → s.all specAsciiLetter = false →
      ChunkType.from_str s = Except.error ChunkTypeError.InvalidCharacter) ∧
    (s.length = 4 → s.all specAsciiLetter = true →
      ∃ c : ChunkType, ChunkType.from_str s = Except.ok c ∧ c.bytes = s) := by
  have hfun : (fun (b : Nat) => (97 ≤ b && b ≤ 122) || (65 ≤ b && b ≤ 90))
      = specAsciiLetter := by
    funext b
    simp [specAsciiLetter, Bool.or_comm]
  refine ⟨?_, ?_, ?_⟩
  · intro h
    unfold ChunkType.from_str
    rw [if_pos h]
  · intro h4 hall
    unfold ChunkType.from_str
    rw [if_neg (by simp [h4])]
    rw [if_pos (by rw [hfun, hall]; simp)]
  · intro h4 hall
    unfold ChunkType.from_str
    rw [if_neg (by simp [h4])]
    rw [if_neg (by rw [hfun, hall]; simp)]
    obtain ⟨a, b, c, d, hs⟩ := eq_four_of_length s h4
    rw [hs]
    exact ⟨⟨a, b, c, d⟩, rfl, by simp [ChunkType.bytes]⟩

/-- C8 witness: `"RuSt"` parses and stores its bytes verbatim. -/
theorem claim_C8_witness :
    ∃ c : ChunkType, ChunkType.from_str [82, 117, 83, 116] = Except.ok c ∧
      c.bytes = [82, 117, 83, 116] :=
  (claim_C8_from_str [82, 117, 83, 116]).2.2 (by decide) (by decide)

/-- C2 counterexample: the tag `"zzAz"` is valid per the spec (all four
bytes ASCII letters, byte index 2 uppercase), yet the round trip fails:
the parser rejects the tag because the code's `is_valid` excludes
lowercase `z`. -/
theorem claim_C2_counterexample :
    specValidTag ⟨122, 122, 65, 122⟩ = true ∧
    Chunk.try_from ((Chunk.new ⟨122, 122, 65, 122⟩ []).as_bytes) =
      some (Except.error ChunkError.InvalidChunkType) :=
  ⟨rfl, rfl⟩

/-- C2 (amended): for every tag the code's `is_valid` accepts and every
payload of bytes shorter than 2^32, parsing the serialized chunk
succeeds and returns the same tag and payload. -/
theorem claim_C2_round_trip (t : ChunkType) (p : List Nat)
    (hv : t.is_valid = true) (hb : ∀ b ∈ p, b < 256)
    (hlen : p.length < 2 ^ 32) :
    Chunk.try_from ((Chunk.new t p).as_bytes) =
      some (Except.ok (Chunk.new t p)) := by
  have hbytes : ∀ b ∈ t.bytes ++ p, b < 2 ^ 32 := by
    intro b hb'
    rcases List.mem_append.mp hb' with h | h
    · exact lt_trans (valid_bytes_lt hv b h) (by decide)
    · exact lt_trans (hb b h) (by decide)
  have hcrc : (Chunk.new t p).crc < 2 ^ 32 := checksum_lt _ hbytes
  have hd : u32_from_be (p.length % 2 ^ 32 / 2 ^ 24 % 256)
      (p.length % 2 ^ 32 / 2 ^ 16 % 256) (p.length % 2 ^ 32 / 2 ^ 8 % 256)
      (p.length % 2 ^ 32 % 256) = p.length := by
    rw [u32_from_be_to_be]
    omega
  have hr : u32_from_be ((Chunk.new t p).crc / 2 ^ 24 % 256)
      ((Chunk.new t p).crc / 2 ^ 16 % 256) ((Chunk.new t p).crc / 2 ^ 8 % 256)
      ((Chunk.new t p).crc % 256) = (Chunk.new t p).crc := by
    rw [u32_from_be_to_be]
    omega
  have hfr := try_from_frame (p.length % 2 ^ 32 / 2 ^ 24 % 256)
    (p.length % 2 ^ 32 / 2 ^ 16 % 256) (p.length % 2 ^ 32 / 2 ^ 8 % 256)
    (p.length % 2 ^ 32 % 256) t p
    ((Chunk.new t p).crc / 2 ^ 24 % 256) ((Chunk.new t p).crc / 2 ^ 16 % 256)
    ((Chunk.new t p).crc / 2 ^ 8 % 256) ((Chunk.new t p).crc % 256) [] hd
  rw [if_neg (by rw [hv]; simp)] at hfr
  rw [if_neg (by rw [hr]; simp)] at hfr
  have hshape : (Chunk.new t p).as_bytes =
      [p.length % 2 ^ 32 / 2 ^ 24 % 256, p.length % 2 ^ 32 / 2 ^ 16 % 256,
        p.length % 2 ^ 32 / 2 ^ 8 % 256, p.length % 2 ^ 32 % 256] ++ t.bytes
        ++ p ++ [(Chunk.new t p).crc / 2 ^ 24 % 256,
          (Chunk.new t p).crc / 2 ^ 16 % 256, (Chunk.new t p).crc / 2 ^ 8 % 256,
          (Chunk.new t p).crc % 256] ++ [] := by
    simp [Chunk.as_bytes, u32_to_be, Chunk.new, Chunk.length]
  rw [hshape, hfr]

/-- C2 witness: the round trip at a concrete valid tag and payload. -/
theorem claim_C2_witness :
    Chunk.try_from ((Chunk.new ⟨82, 117, 83, 116⟩ [1, 2, 3]).as_bytes) =
      some (Except.ok (Chunk.new ⟨82, 117, 83, 116⟩ [1, 2, 3])) :=
  claim_C2_round_trip ⟨82, 117, 83, 116⟩ [1, 2, 3] (by decide) (by decide)
    (by decide)

/-- C9: when a chunk parses successfully from its own serialization,
appending any extra bytes after the CRC field leaves the parse result
unchanged. -/
theorem claim_C9_trailing_ignored (c d : Chunk) (x : List Nat)
    (h : Chunk.try_from c.as_bytes = some (Except.ok d)) :
    Chunk.try_from (c.as_bytes ++ x) = some (Except.ok d) :=
  try_from_append c.as_bytes x d h

/-- C9 witness: trailing garbage after a concrete serialized chunk is
ignored. -/
theorem claim_C9_witness :
    Chunk.try_from ((Chunk.new ⟨82, 117, 83, 116⟩ []).as_bytes ++ [9, 9]) =
      some (Except.ok (Chunk.new ⟨82, 117, 83, 116⟩ [])) :=
  claim_C9_trailing_ignored (Chunk.new ⟨82, 117, 83, 116⟩ [])
    (Chunk.new ⟨82, 117, 83, 116⟩ []) [9, 9] rfl

/-- C10: a tag rejected by `is_valid` still constructs and serializes
(the serialization is well formed: 12 bytes plus the payload), but
parsing the serialization fails with `InvalidChunkType`: the tag check
runs before the CRC check. -/
theorem claim_C10_invalid_tag (t : ChunkType) (p : List Nat)
    (hv : t.is_valid = false) :
    ((Chunk.new t p).as_bytes).length = 12 + p.length ∧
    Chunk.try_from ((Chunk.new t p).as_bytes) =
      some (Except.error ChunkError.InvalidChunkType) := by
  constructor
  · simp [Chunk.as_bytes, u32_to_be, ChunkType.bytes, Chunk.length, Chunk.new]
    omega
  · have hfr := try_from_frame_invalid
      (p.length % 2 ^ 32 / 2 ^ 24 % 256) (p.length % 2 ^ 32 / 2 ^ 16 % 256)
      (p.length % 2 ^ 32 / 2 ^ 8 % 256) (p.length % 2 ^ 32 % 256) t
      (p ++ u32_to_be ((Chunk.new t p).crc))
      (by simp [u32_to_be]) hv
    have hshape : (Chunk.new t p).as_bytes =
        [p.length % 2 ^ 32 / 2 ^ 24 % 256, p.length % 2 ^ 32 / 2 ^ 16 % 256,
          p.length % 2 ^ 32 / 2 ^ 8 % 256, p.length % 2 ^ 32 % 256] ++ t.bytes
          ++ (p ++ u32_to_be ((Chunk.new t p).crc)) := by
      simp [Chunk.as_bytes, u32_to_be, Chunk.new, Chunk.length]
    rw [hshape, hfr]

/-- C10 witness: the tag `"Rust"` (reserved bit set) serializes but does
not parse back. -/
theorem claim_C10_witness :
    Chunk.try_from ((Chunk.new ⟨82, 117, 115, 116⟩ [7]).as_bytes) =
      some (Except.error ChunkError.InvalidChunkType) :=
  (claim_C10_invalid_tag ⟨82, 117, 115, 116⟩ [7] (by decide)).2

/-- C4 counterexample: flipping bit 5 of byte index 6 of a serialized
chunk (the case bit of tag byte 2, `S` to `s`) is a single-bit flip in
the type-tag region, yet parsing fails with `InvalidChunkType`, not the
`CrcMismatch` the claim requires. -/
theorem claim_C4_counterexample :
    ChunkType.is_valid ⟨82, 117, 83, 116⟩ = true ∧
    Chunk.try_from (flipAt ((Chunk.new ⟨82, 117, 83, 116⟩ []).as_bytes) 6 5) =
      some (Except.error ChunkError.InvalidChunkType) :=
  ⟨rfl, rfl⟩

/-- C4 (amended): flipping any single bit in the type-tag or payload
region of a serialized chunk changes the computed CRC; parsing the
altered bytes fails with `CrcMismatch` carrying the stored and the
recomputed CRC when the altered tag still passes `is_valid`, and with
`InvalidTypeTag` otherwise. -/
theorem claim_C4_bit_flip (t : ChunkType) (p : List Nat) (i k : Nat)
    (hv : t.is_valid = true) (hb : ∀ b ∈ p, b < 256)
    (hlen : p.length < 2 ^ 32) (hi4 : 4 ≤ i) (hi : i < 8 + p.length)
    (hk : k < 8) :
    checksum_ieee (flipAt (t.bytes ++ p) (i - 4) k) ≠ (Chunk.new t p).crc ∧
    ((tagOfBytes (flipAt (t.bytes ++ p) (i - 4) k)).is_valid = true →
      Chunk.try_from (flipAt ((Chunk.new t p).as_bytes) i k) =
        some (Except.error (ChunkError.InvalidCrc ((Chunk.new t p).crc)
          (checksum_ieee (flipAt (t.bytes ++ p) (i - 4) k))))) ∧
    ((tagOfBytes (flipAt (t.bytes ++ p) (i - 4) k)).is_valid = false →
      Chunk.try_from (flipAt ((Chunk.new t p).as_bytes) i k) =
        some (Except.error ChunkError.InvalidChunkType)) := by
  have hmlen : (t.bytes ++ p).length = 4 + p.length := by
    simp [ChunkType.bytes]
    omega
  have hj : i - 4 < (t.bytes ++ p).length := by
    rw [hmlen]
    omega
  have hne : checksum_ieee (flipAt (t.bytes ++ p) (i - 4) k) ≠
      (Chunk.new t p).crc :=
    checksum_flip_ne (t.bytes ++ p) (i - 4) k hj hk
  have hbytes : ∀ b ∈ t.bytes ++ p, b < 2 ^ 32 := by
    intro b hb'
    rcases List.mem_append.mp hb' with h | h
    · exact lt_trans (valid_bytes_lt hv b h) (by decide)
    · exact lt_trans (hb b h) (by decide)
  have hcrcb : (Chunk.new t p).crc < 2 ^ 32 := checksum_lt _ hbytes
  have hser : (Chunk.new t p).as_bytes =
      u32_to_be (p.length % 2 ^ 32) ++ ((t.bytes ++ p)
        ++ u32_to_be ((Chunk.new t p).crc)) := by
    simp [Chunk.as_bytes, Chunk.new, Chunk.length, List.append_assoc]
  have hflip : flipAt ((Chunk.new t p).as_bytes) i k =
      u32_to_be (p.length % 2 ^ 32) ++ (flipAt (t.bytes ++ p) (i - 4) k
        ++ u32_to_be ((Chunk.new t p).crc)) := by
    rw [hser]
    have hmid := flipAt_append_middle (u32_to_be (p.length % 2 ^ 32))
      (t.bytes ++ p) (u32_to_be ((Chunk.new t p).crc)) i k
      (by simp [u32_to_be]; omega) (by simp [u32_to_be, ChunkType.bytes]; omega)
    simpa [u32_to_be] using hmid
  have hm'len : 4 ≤ (flipAt (t.bytes ++ p) (i - 4) k).length := by
    simp only [flipAt, List.length_set]
    omega
  obtain ⟨a, b, c, d, rest, hm'⟩ :=
    exists_cons4 (flipAt (t.bytes ++ p) (i - 4) k) hm'len
  have hrest : rest.length = p.length := by
    have hlen' := congrArg List.length hm'
    simp only [flipAt, List.length_set, hmlen, List.length_cons] at hlen'
    omega
  have htag : tagOfBytes (flipAt (t.bytes ++ p) (i - 4) k) =
      ChunkType.mk a b c d := by
    rw [hm']
    rfl
  have hd : u32_from_be (p.length % 2 ^ 32 / 2 ^ 24 % 256)
      (p.length % 2 ^ 32 / 2 ^ 16 % 256) (p.length % 2 ^ 32 / 2 ^ 8 % 256)
      (p.length % 2 ^ 32 % 256) = rest.length := by
    rw [u32_from_be_to_be, hrest]
    omega
  have hr : u32_from_be ((Chunk.new t p).crc / 2 ^ 24 % 256)
      ((Chunk.new t p).crc / 2 ^ 16 % 256) ((Chunk.new t p).crc / 2 ^ 8 % 256)
      ((Chunk.new t p).crc % 256) = (Chunk.new t p).crc := by
    rw [u32_from_be_to_be]
    omega
  have hfr := try_from_frame (p.length % 2 ^ 32 / 2 ^ 24 % 256)
    (p.length % 2 ^ 32 / 2 ^ 16 % 256) (p.length % 2 ^ 32 / 2 ^ 8 % 256)
    (p.length % 2 ^ 32 % 256) (ChunkType.mk a b c d) rest
    ((Chunk.new t p).crc / 2 ^ 24 % 256) ((Chunk.new t p).crc / 2 ^ 16 % 256)
    ((Chunk.new t p).crc / 2 ^ 8 % 256) ((Chunk.new t p).crc % 256) [] hd
  have hinput : flipAt ((Chunk.new t p).as_bytes) i k =
      [p.length % 2 ^ 32 / 2 ^ 24 % 256, p.length % 2 ^ 32 / 2 ^ 16 % 256,
        p.length % 2 ^ 32 / 2 ^ 8 % 256, p.length % 2 ^ 32 % 256]
        ++ (ChunkType.mk a b c d).bytes ++ rest
        ++ [(Chunk.new t p).crc / 2 ^ 24 % 256,
          (Chunk.new t p).crc / 2 ^ 16 % 256,
          (Chunk.new t p).crc / 2 ^ 8 % 256, (Chunk.new t p).crc % 256]
        ++ [] := by
    rw [hflip, hm']
    simp [u32_to_be, ChunkType.bytes, List.append_assoc]
  have hnewcrc : (Chunk.new (ChunkType.mk a b c d) rest).crc =
      checksum_ieee (flipAt (t.bytes ++ p) (i - 4) k) := by
    rw [hm']
    simp [Chunk.crc, Chunk.new, ChunkType.bytes]
  refine ⟨hne, ?_, ?_⟩
  · intro hvt
    rw [htag] at hvt
    rw [hinput, hfr]
    rw [if_neg (by rw [hvt]; simp)]
    rw [if_pos (by rw [hr, hnewcrc]; exact Ne.symm hne)]
    rw [hr, hnewcrc]
  · intro hvt
    rw [htag] at hvt
    rw [hinput, hfr]
    rw [if_pos hvt]

/-- C4 witness: flipping bit 0 of byte index 8 (the only payload byte)
of a concrete serialized chunk leaves the tag valid and yields the CRC
mismatch with both values. -/
theorem claim_C4_witness :
    Chunk.try_from (flipAt ((Chunk.new ⟨82, 117, 83, 116⟩ [0]).as_bytes) 8 0) =
      some (Except.error (ChunkError.InvalidCrc
        ((Chunk.new ⟨82, 117, 83, 116⟩ [0]).crc)
        (checksum_ieee (flipAt ((ChunkType.mk 82 117 83 116).bytes ++ [0])
          (8 - 4) 0)))) :=
  (claim_C4_bit_flip ⟨82, 117, 83, 116⟩ [0] 8 0 (by decide) (by decide)
    (by decide) (by decide) (by decide) (by decide)).2.1 (by decide)

end PngMsg
